import Mathlib

/-!
Verification of the execution-batch orchestrator of the flowAPIscripts
repository (files `flowrunanalysis.py` and `analysis/flowrunanalysis_flowbio.py`).

The Python functions are shallowly embedded as executable Lean definitions:
dictionaries become association lists (in insertion order), the HTTP layer is
replaced by explicit oracle functions (`server`, `submit`) and the interactive
confirmation by a boolean `proceed` (true iff `input().strip().lower() == "y"`),
and the main submission loops become recursive functions returning the trace of
observable events, the list of recorded run URLs and the run outcome.
-/

namespace FlowRun

/-- A project sample as used by the scripts: only `id` and `name` are read
(`s["id"]`, `s.get("name", "")`). -/
structure Sample where
  id : String
  name : String
deriving DecidableEq

/-- A file record taken from an execution's declared inputs or from a process
step's `downstream_data`: the scripts read `f.get("filename")` and `f["id"]`.
A missing/None filename is modelled as `""` (both are falsy in Python). -/
structure FileRecord where
  filename : String
  id : String
deriving DecidableEq

/-- The parts of a prep-execution record read by
`build_data_params_from_execution`: the values of `execution["data_params"]`
(in dict insertion order) and, for each entry of
`execution["process_executions"]`, its `downstream_data` list. -/
structure Execution where
  data_params : List FileRecord
  process_executions : List (List FileRecord)
deriving DecidableEq

/-- Model of `all_files` in `build_data_params_from_execution`: the declared-input
records followed by every process step's downstream records, in listed order. -/
def allFiles (ex : Execution) : List FileRecord :=
  ex.data_params ++ ex.process_executions.flatten

/-- Lookup in an association list built in insertion order (Python `dict.get`). -/
def lookupIdx : List (String × FileRecord) → String → Option FileRecord
  | [], _ => none
  | (k, f) :: rest, fn => if k = fn then some f else lookupIdx rest fn

/-- One step of the index-building loop of `build_data_params_from_execution`:
`if fn and fn not in idx: idx[fn] = f` (first-seen record wins, records with a
falsy filename are skipped). -/
def insertFirst (idx : List (String × FileRecord)) (f : FileRecord) :
    List (String × FileRecord) :=
  if f.filename ≠ "" ∧ lookupIdx idx f.filename = none then
    idx ++ [(f.filename, f)]
  else idx

/-- The filename → record index of `build_data_params_from_execution`. -/
def buildIdx (files : List FileRecord) : List (String × FileRecord) :=
  files.foldl insertFirst []

/-- The `for param_name, expected_filename in file_map.items()` loop of
`build_data_params_from_execution`: returns the bound `(param, id)` pairs and
the `missing` pairs, both in file-map order. -/
def resolveEntries (idx : List (String × FileRecord)) :
    List (String × String) → List (String × String) × List (String × String)
  | [] => ([], [])
  | pf :: rest =>
    let r := resolveEntries idx rest
    match lookupIdx idx pf.2 with
    | some f => ((pf.1, f.id) :: r.1, r.2)
    | none => (r.1, (pf.1, pf.2) :: r.2)

/-- Model of `build_data_params_from_execution(execution, file_map)` (identical in
`flowrunanalysis.py` and `flowrunanalysis_flowbio.py`): raises listing every
missing `(param, filename)` pair, otherwise returns the bound map. -/
def build_data_params_from_execution (ex : Execution)
    (file_map : List (String × String)) :
    Except (List (String × String)) (List (String × String)) :=
  let idx := buildIdx (allFiles ex)
  let r := resolveEntries idx file_map
  if r.2 = [] then Except.ok r.1 else Except.error r.2

/-- The hard-coded `FILE_MAP` constant shared by both analysis scripts. -/
def FILE_MAP : List (String × String) :=
  [("fasta", "Homo_sapiens.GRCh38.fasta"),
   ("gtf", "Homo_sapiens.GRCh38.109.gtf"),
   ("smrna_fasta", "Homo_sapiens.GRCh38.smrna.fasta"),
   ("fasta_fai", "Homo_sapiens.GRCh38.fasta.fai"),
   ("chrom_sizes", "Homo_sapiens.GRCh38.fasta.sizes"),
   ("target_genome_index", "star"),
   ("smrna_genome_index", "bowtie"),
   ("smrna_fasta_fai", "Homo_sapiens.GRCh38.smrna.fasta.fai"),
   ("smrna_chrom_sizes", "Homo_sapiens.GRCh38.smrna.fasta.sizes"),
   ("longest_transcript", "longest_transcript.txt"),
   ("longest_transcript_fai", "longest_transcript.fai"),
   ("longest_transcript_gtf", "longest_transcript.gtf"),
   ("filtered_gtf", "Homo_sapiens_filtered.gtf"),
   ("seg_gtf", "Homo_sapiens_seg.gtf"),
   ("seg_filt_gtf", "Homo_sapiens_filtered_seg.gtf"),
   ("seg_resolved_gtf", "Homo_sapiens_filtered_seg_genicOtherfalse.resolved.gtf"),
   ("seg_resolved_gtf_genic", "Homo_sapiens_filtered_seg_genicOthertrue.resolved.gtf"),
   ("regions_gtf", "Homo_sapiens_regions.gtf.gz"),
   ("regions_filt_gtf", "Homo_sapiens_filtered_regions.gtf.gz"),
   ("regions_resolved_gtf", "Homo_sapiens_filtered_regions_genicOtherfalse.resolved.gtf"),
   ("regions_resolved_gtf_genic", "Homo_sapiens_filtered_regions_genicOthertrue.resolved.gtf")]

/-- The section sizes used by `numpy.array_split` on a length-`L` array split
into `n` sections: `L % n` sections of size `L / n + 1` followed by
`n - L % n` sections of size `L / n`. -/
def section_sizes (L n : Nat) : List Nat :=
  List.replicate (L % n) (L / n + 1) ++ List.replicate (n - L % n) (L / n)

/-- Cut a list into consecutive chunks of the given sizes. -/
def takeChunks : List α → List Nat → List (List α)
  | _, [] => []
  | l, sz :: rest => l.take sz :: takeChunks (l.drop sz) rest

/-- Model of `numpy.array_split(np.array(selected, dtype=object), n)` followed
by `list(chunk)` on each sub-array. -/
def array_split (l : List α) (n : Nat) : List (List α) :=
  takeChunks l (section_sizes l.length n)

/-- The batch partitioner of both main scripts:
`n_chunks = max(1, int(args.num_chunks))` then `np.array_split(..., n_chunks)`. -/
def partition (samples : List α) (num_chunks : Int) : List (List α) :=
  array_split samples (max 1 num_chunks).toNat

/-- A paginated sample endpoint backed by the full ordered sample list: page
`p` (1-indexed) holds samples `(p-1)*page_size .. p*page_size - 1`. -/
def pagedServer (all : List α) (page_size : Nat) (page : Nat) : List α :=
  (all.drop ((page - 1) * page_size)).take page_size

/-- The `while True` pagination loop of `fetch_all_project_samples`, with
explicit fuel (the Python loop has no bound of its own): requests `server page`,
stops on an empty page, appends the page, stops if the page is short, else
moves to the next page.  Returns the collected samples and the number of page
requests issued, or `none` if the fuel ran out before the loop stopped. -/
def fetchGo (server : Nat → List α) (page_size : Nat) :
    Nat → Nat → List α → Option (List α × Nat)
  | 0, _, _ => none
  | fuel + 1, page, collected =>
    let samples := server page
    if samples.isEmpty then some (collected, page)
    else if samples.length < page_size then some (collected ++ samples, page)
    else fetchGo server page_size fuel (page + 1) (collected ++ samples)

/-- Model of `fetch_all_project_samples` (identical in both analysis scripts): start at
page 1 with an empty collection. -/
def fetch_all_project_samples (server : Nat → List α) (page_size fuel : Nat) :
    Option (List α × Nat) :=
  fetchGo server page_size fuel 1 []

/-- Observable events of the main submission loops. -/
inductive Ev where
  /-- Log event `DRY RUN: Batch i ...` followed by the first ten samples of the
  batch (`for s in chunk[:10]`). -/
  | dry_log (i : Nat) (shown : List Sample)
  /-- Prompt event `Submit? (y/n)`. -/
  | prompt
  /-- Log event `Skipping batch i (not in range ...)`. -/
  | skip (i : Nat)
  /-- A live submission request for batch `i` whose samplesheet carries
  `nrows` sample rows. -/
  | submit_req (i : Nat) (nrows : Nat)
  /-- Log event `Failed to submit batch i: ...`. -/
  | fail (i : Nat)
deriving DecidableEq

/-- How the run ends. -/
inductive Outcome where
  | completed
  | aborted_by_user
  | errored
  | config_error
deriving DecidableEq

/-- Process exit status: `sys.exit(0)` on user abort, the top-level
`except Exception` handler exits 1, `SystemExit(str)` exits 1. -/
def exitCode : Outcome → Nat
  | .completed => 0
  | .aborted_by_user => 0
  | .errored => 1
  | .config_error => 1

def isSubmitEv : Ev → Bool
  | .submit_req _ _ => true
  | _ => false

def isPromptEv : Ev → Bool
  | .prompt => true
  | _ => false

/-- The batch loop of `flowrunanalysis.py` (`for i, chunk in
enumerate(chunks, start=1)`).  `dry_run` is `args.dry_run`; `proceed` is true
iff `input("Submit? (y/n): ").strip().lower() == "y"`; `submit i` is the
outcome of the POST for batch `i` (`some run_id` on success, `none` when the
request fails or the response carries no id — either way an exception
propagates and ends the run).  Returns the event trace, the recorded run URLs
and the outcome. -/
def loop1 (dry_run : Bool) (proceed : Bool) (submit : Nat → Option String) :
    Nat → List (List Sample) → List Ev × List String × Outcome
  | _, [] => ([], [], .completed)
  | i, chunk :: rest =>
    if dry_run then
      let r := loop1 dry_run proceed submit (i + 1) rest
      (.dry_log i (chunk.take 10) :: r.1, r.2.1, r.2.2)
    else if i = 1 ∧ proceed = false then
      ([.prompt], [], .aborted_by_user)
    else
      let pre : List Ev := if i = 1 then [.prompt] else []
      match submit i with
      | none => (pre ++ [.submit_req i chunk.length], [], .errored)
      | some run_id =>
        let r := loop1 dry_run proceed submit (i + 1) rest
        (pre ++ [.submit_req i chunk.length] ++ r.1,
         ("https://app.flow.bio/executions/" ++ run_id) :: r.2.1, r.2.2)

/-- The batch loop of `flowrunanalysis_flowbio.py`: batches outside
`[start_batch, end_batch]` are skipped before anything else (including the
prompt); the prompt is tied to `i == 1`; each submission is wrapped in
`try/except` that logs the failure and continues. -/
def loop2 (proceed : Bool) (submit : Nat → Option String) (sb eb : Int) :
    Nat → List (List Sample) → List Ev × List String × Outcome
  | _, [] => ([], [], .completed)
  | i, chunk :: rest =>
    if (i : Int) < sb ∨ eb < (i : Int) then
      let r := loop2 proceed submit sb eb (i + 1) rest
      (.skip i :: r.1, r.2.1, r.2.2)
    else if i = 1 ∧ proceed = false then
      ([.prompt], [], .aborted_by_user)
    else
      let pre : List Ev := if i = 1 then [.prompt] else []
      match submit i with
      | none =>
        let r := loop2 proceed submit sb eb (i + 1) rest
        (pre ++ [.submit_req i chunk.length, .fail i] ++ r.1, r.2.1, r.2.2)
      | some run_id =>
        let r := loop2 proceed submit sb eb (i + 1) rest
        (pre ++ [.submit_req i chunk.length] ++ r.1,
         ("https://app.flow.bio/executions/" ++ run_id) :: r.2.1, r.2.2)

/-- The batch-range part of `main()` in `flowrunanalysis_flowbio.py`:
`start_batch = max(1, args.start_batch)`,
`end_batch = min(args.end_batch if ... is not None else len(chunks), len(chunks))`,
`if start_batch > len(chunks): raise SystemExit(...)`, then the batch loop. -/
def main2 (proceed : Bool) (submit : Nat → Option String) (num_chunks : Int)
    (start_batch : Int) (end_batch : Option Int) (selected : List Sample) :
    List Ev × List String × Outcome :=
  let chunks := partition selected num_chunks
  let sb := max 1 start_batch
  let eb := min (end_batch.getD (chunks.length : Int)) (chunks.length : Int)
  if (chunks.length : Int) < sb then ([], [], .config_error)
  else loop2 proceed submit sb eb 1 chunks

/-- The dry-run trace: one `dry_log` per batch, showing the first ten samples. -/
def dryLogs : Nat → List (List Sample) → List Ev
  | _, [] => []
  | i, chunk :: rest => .dry_log i (chunk.take 10) :: dryLogs (i + 1) rest

/-- Whether batch `i` lies in the submission range `[sb, eb]`. -/
def inRangeB (sb eb : Int) (i : Nat) : Bool :=
  decide (sb ≤ (i : Int) ∧ (i : Int) ≤ eb)

/-- Modelled from the spec claim C9's words: a batch index "clamped into the
range `[1, n]`" (the code itself never clamps an end index from below; this
definition exists only to state the counterexample against the claim). -/
def claimed_clamp (n : Nat) (x : Int) : Int :=
  min (max 1 x) (n : Int)

end FlowRun

namespace FlowRun

theorem lookupIdx_append (idx : List (String × FileRecord)) (k : String)
    (f : FileRecord) (fn : String) :
    lookupIdx (idx ++ [(k, f)]) fn =
      match lookupIdx idx fn with
      | some g => some g
      | none => if k = fn then some f else none := by
  induction idx with
  | nil => simp [lookupIdx]
  | cons hd tl ih =>
    obtain ⟨k0, f0⟩ := hd
    by_cases h : k0 = fn <;> simp [lookupIdx, h, ih]

theorem lookupIdx_foldl_insertFirst (files : List FileRecord) (fn : String)
    (h : fn ≠ "") :
    ∀ acc : List (String × FileRecord),
      lookupIdx (files.foldl insertFirst acc) fn =
        match lookupIdx acc fn with
        | some g => some g
        | none => files.find? (fun f => f.filename == fn) := by
  induction files with
  | nil => intro acc; cases hl : lookupIdx acc fn <;> simp [List.foldl, hl]
  | cons f rest ih =>
    intro acc
    rw [List.foldl_cons, ih]
    unfold insertFirst
    by_cases hfn : f.filename = fn
    · subst hfn
      by_cases hacc : lookupIdx acc f.filename = none
      · rw [if_pos ⟨h, hacc⟩, lookupIdx_append, hacc]
        simp [List.find?]
      · rw [if_neg (by simp [hacc])]
        obtain ⟨g, hg⟩ := Option.ne_none_iff_exists'.mp hacc
        simp [hg, List.find?]
    · have hne : (f.filename == fn) = false := by
        simp [hfn]
      by_cases hcond : f.filename ≠ "" ∧ lookupIdx acc f.filename = none
      · rw [if_pos hcond, lookupIdx_append]
        cases hl : lookupIdx acc fn with
        | some g => simp [hl]
        | none => simp [hl, hfn, List.find?, hne]
      · rw [if_neg hcond]
        cases hl : lookupIdx acc fn with
        | some g => simp [hl]
        | none => simp [hl, List.find?, hne]

theorem lookupIdx_buildIdx (files : List FileRecord) (fn : String) (h : fn ≠ "") :
    lookupIdx (buildIdx files) fn = files.find? (fun f => f.filename == fn) := by
  rw [buildIdx, lookupIdx_foldl_insertFirst files fn h []]
  simp [lookupIdx]

theorem lookupIdx_foldl_empty_key (files : List FileRecord) :
    ∀ acc : List (String × FileRecord), lookupIdx acc "" = none →
      lookupIdx (files.foldl insertFirst acc) "" = none := by
  induction files with
  | nil => intro acc hacc; simpa [List.foldl] using hacc
  | cons f rest ih =>
    intro acc hacc
    rw [List.foldl_cons]
    apply ih
    unfold insertFirst
    by_cases hcond : f.filename ≠ "" ∧ lookupIdx acc f.filename = none
    · rw [if_pos hcond, lookupIdx_append, hacc]
      simp [hcond.1]
    · rw [if_neg hcond]; exact hacc

theorem lookupIdx_buildIdx_some (files : List FileRecord) (fn : String)
    (f : FileRecord) (h : lookupIdx (buildIdx files) fn = some f) :
    files.find? (fun g => g.filename == fn) = some f := by
  by_cases hfn : fn = ""
  · subst hfn
    have := lookupIdx_foldl_empty_key files [] (by simp [lookupIdx])
    rw [buildIdx] at h
    rw [this] at h
    exact absurd h (by simp)
  · rw [← lookupIdx_buildIdx files fn hfn]; exact h

theorem resolveEntries_eq (idx : List (String × FileRecord)) :
    ∀ fm : List (String × String),
      resolveEntries idx fm =
        (fm.filterMap (fun pf => (lookupIdx idx pf.2).map (fun f => (pf.1, f.id))),
         fm.filter (fun pf => (lookupIdx idx pf.2).isNone)) := by
  intro fm
  induction fm with
  | nil => simp [resolveEntries]
  | cons pf rest ih =>
    cases hl : lookupIdx idx pf.2 with
    | some f => simp [resolveEntries, hl, ih, List.filterMap_cons, List.filter_cons]
    | none => simp [resolveEntries, hl, ih, List.filterMap_cons, List.filter_cons]

theorem resolved_keys_of_all_found (idx : List (String × FileRecord)) :
    ∀ fm : List (String × String),
      (∀ pf ∈ fm, (lookupIdx idx pf.2).isNone = false) →
      (fm.filterMap (fun pf => (lookupIdx idx pf.2).map (fun f => (pf.1, f.id)))).map
          Prod.fst = fm.map Prod.fst := by
  intro fm
  induction fm with
  | nil => simp
  | cons pf rest ih =>
    intro hall
    have hpf := hall pf (List.mem_cons_self _ _)
    cases hl : lookupIdx idx pf.2 with
    | none => rw [hl] at hpf; simp at hpf
    | some f =>
      rw [List.filterMap_cons]
      simp only [hl, Option.map_some']
      rw [List.map_cons]
      rw [ih (fun q hq => hall q (List.mem_cons_of_mem _ hq))]
      simp

theorem sum_replicate_nat (k a : Nat) : (List.replicate k a).sum = k * a := by
  induction k with
  | zero => simp
  | succ k ih => rw [List.replicate_succ, List.sum_cons, ih, Nat.succ_mul]; omega

theorem countP_replicate {α : Type} (p : α → Bool) (k : Nat) (a : α) :
    (List.replicate k a).countP p = if p a then k else 0 := by
  induction k with
  | zero => simp
  | succ k ih =>
    rw [List.replicate_succ, List.countP_cons, ih]
    by_cases h : p a <;> simp [h]

theorem section_sizes_sum (L n : Nat) (hn : 0 < n) : (section_sizes L n).sum = L := by
  have hr : L % n ≤ n := Nat.le_of_lt (Nat.mod_lt _ hn)
  have hdiv : L % n + n * (L / n) = L := Nat.mod_add_div L n
  rw [section_sizes, List.sum_append, sum_replicate_nat, sum_replicate_nat,
    Nat.mul_succ, Nat.sub_mul]
  have hmul : L % n * (L / n) ≤ n * (L / n) :=
    Nat.mul_le_mul_right _ hr
  omega

theorem section_sizes_length (L n : Nat) (hn : 0 < n) :
    (section_sizes L n).length = n := by
  have hr : L % n ≤ n := Nat.le_of_lt (Nat.mod_lt _ hn)
  rw [section_sizes, List.length_append, List.length_replicate, List.length_replicate]
  omega

theorem takeChunks_length {α : Type} :
    ∀ (sizes : List Nat) (l : List α), (takeChunks l sizes).length = sizes.length := by
  intro sizes
  induction sizes with
  | nil => intro l; simp [takeChunks]
  | cons sz rest ih => intro l; simp [takeChunks, ih]

theorem takeChunks_flatten {α : Type} :
    ∀ (sizes : List Nat) (l : List α), l.length ≤ sizes.sum →
      (takeChunks l sizes).flatten = l := by
  intro sizes
  induction sizes with
  | nil =>
    intro l h
    simp only [List.sum_nil, Nat.le_zero] at h
    simp [takeChunks, List.length_eq_zero.mp h]
  | cons sz rest ih =>
    intro l h
    rw [List.sum_cons] at h
    rw [takeChunks, List.flatten_cons, ih (l.drop sz) (by simp; omega)]
    exact List.take_append_drop sz l

theorem takeChunks_map_length {α : Type} :
    ∀ (sizes : List Nat) (l : List α), sizes.sum ≤ l.length →
      (takeChunks l sizes).map List.length = sizes := by
  intro sizes
  induction sizes with
  | nil => intro l h; simp [takeChunks]
  | cons sz rest ih =>
    intro l h
    rw [List.sum_cons] at h
    rw [takeChunks, List.map_cons, List.length_take,
      Nat.min_eq_left (by omega), ih (l.drop sz) (by simp; omega)]

theorem clamp_chunks_pos (num_chunks : Int) : 0 < (max 1 num_chunks).toNat := by
  have h : (1 : Int) ≤ max 1 num_chunks := le_max_left _ _
  omega

theorem partition_length {α : Type} (samples : List α) (num_chunks : Int) :
    (partition samples num_chunks).length = (max 1 num_chunks).toNat := by
  rw [partition, array_split, takeChunks_length,
    section_sizes_length _ _ (clamp_chunks_pos num_chunks)]

theorem partition_flatten {α : Type} (samples : List α) (num_chunks : Int) :
    (partition samples num_chunks).flatten = samples := by
  rw [partition, array_split, takeChunks_flatten]
  rw [section_sizes_sum _ _ (clamp_chunks_pos num_chunks)]

theorem partition_map_length {α : Type} (samples : List α) (num_chunks : Int) :
    (partition samples num_chunks).map List.length =
      section_sizes samples.length (max 1 num_chunks).toNat := by
  rw [partition, array_split, takeChunks_map_length]
  rw [section_sizes_sum _ _ (clamp_chunks_pos num_chunks)]

/-- C4: for every sample list of length `L` and every requested batch count
`n` (values below 1 clamped to 1), the partitioner returns the clamped number
of batches, in input order covering every sample exactly once (their
concatenation is the input list), and the batch sizes are `L % n` batches of
`L / n + 1` elements (that is, `⌈L/n⌉` whenever `L % n ≠ 0`) followed by
`n - L % n` batches of `L / n` (`⌊L/n⌋`) elements. -/
theorem partition_shape {α : Type} (samples : List α) (num_chunks : Int) :
    (partition samples num_chunks).length = (max 1 num_chunks).toNat ∧
    (partition samples num_chunks).flatten = samples ∧
    (partition samples num_chunks).map List.length =
      List.replicate (samples.length % (max 1 num_chunks).toNat)
          (samples.length / (max 1 num_chunks).toNat + 1) ++
        List.replicate
          ((max 1 num_chunks).toNat - samples.length % (max 1 num_chunks).toNat)
          (samples.length / (max 1 num_chunks).toNat) :=
  ⟨partition_length samples num_chunks, partition_flatten samples num_chunks,
    (partition_map_length samples num_chunks).trans rfl⟩

theorem build_data_params_eq (ex : Execution) (file_map : List (String × String)) :
    build_data_params_from_execution ex file_map =
      if file_map.filter
          (fun pf => (lookupIdx (buildIdx (allFiles ex)) pf.2).isNone) = [] then
        Except.ok (file_map.filterMap
          (fun pf => (lookupIdx (buildIdx (allFiles ex)) pf.2).map
            (fun f => (pf.1, f.id))))
      else
        Except.error (file_map.filter
          (fun pf => (lookupIdx (buildIdx (allFiles ex)) pf.2).isNone)) := by
  simp only [build_data_params_from_execution, resolveEntries_eq]

/-- C1: for every execution record and fixed file map, the resolver either
returns a binding whose key list equals exactly the file map's key list (so
every logical name is bound — never a strict subset), or fails with a single
error listing every missing `(logicalName, expectedFilename)` pair. -/
theorem resolve_all_or_nothing (ex : Execution) (file_map : List (String × String)) :
    (∃ dp, build_data_params_from_execution ex file_map = Except.ok dp ∧
        dp.map Prod.fst = file_map.map Prod.fst) ∨
    (build_data_params_from_execution ex file_map =
        Except.error (file_map.filter
          (fun pf => (lookupIdx (buildIdx (allFiles ex)) pf.2).isNone)) ∧
      file_map.filter
          (fun pf => (lookupIdx (buildIdx (allFiles ex)) pf.2).isNone) ≠ []) := by
  rw [build_data_params_eq]
  by_cases h : file_map.filter
      (fun pf => (lookupIdx (buildIdx (allFiles ex)) pf.2).isNone) = []
  · left
    refine ⟨_, by rw [if_pos h], ?_⟩
    apply resolved_keys_of_all_found
    intro pf hpf
    have hp := List.filter_eq_nil_iff.mp h pf hpf
    simpa [Option.isSome_iff_ne_none] using hp
  · right
    exact ⟨by rw [if_neg h], h⟩

/-- C5: when several file records share a filename across the candidate list
(declared inputs first, then each process step's downstream outputs in listed
order), a successful resolution binds each logical name to the id of the
*first* record carrying the expected filename: later records with the same
filename are ignored. -/
theorem duplicate_filenames_first_seen (ex : Execution)
    (file_map dp : List (String × String)) (p fn : String) (f : FileRecord)
    (hok : build_data_params_from_execution ex file_map = Except.ok dp)
    (hmem : (p, fn) ∈ file_map)
    (hfind : (allFiles ex).find? (fun g => g.filename == fn) = some f) :
    (p, f.id) ∈ dp := by
  rw [build_data_params_eq] at hok
  by_cases h : file_map.filter
      (fun pf => (lookupIdx (buildIdx (allFiles ex)) pf.2).isNone) = []
  · rw [if_pos h] at hok
    have hdp := (Except.ok.injEq _ _).mp hok
    have hlook : (lookupIdx (buildIdx (allFiles ex)) fn).isNone = false := by
      have hp := List.filter_eq_nil_iff.mp h (p, fn) hmem
      simpa [Option.isSome_iff_ne_none] using hp
    obtain ⟨g, hg⟩ : ∃ g, lookupIdx (buildIdx (allFiles ex)) fn = some g := by
      cases hl : lookupIdx (buildIdx (allFiles ex)) fn with
      | none => rw [hl] at hlook; simp at hlook
      | some g => exact ⟨g, rfl⟩
    have hgf : g = f := by
      have hf2 := lookupIdx_buildIdx_some (allFiles ex) fn g hg
      rw [hf2] at hfind
      injection hfind
    subst hgf
    rw [← hdp]
    exact List.mem_filterMap.mpr ⟨(p, fn), hmem, by simp [hg]⟩
  · rw [if_neg h] at hok
    exact absurd hok (by simp)

/-- Witness for C5: a candidate list holding two records that share the
filename `"dup.txt"` but have different ids (one among the declared inputs,
one among a process step's downstream outputs); the resolver binds the logical
name to the first record's id `"id1"`. -/
theorem duplicate_filenames_first_seen_witness :
    ("fasta", "id1") ∈ [("fasta", "id1")] :=
  duplicate_filenames_first_seen
    ⟨[⟨"dup.txt", "id1"⟩], [[⟨"dup.txt", "id2"⟩]]⟩
    [("fasta", "dup.txt")] [("fasta", "id1")] "fasta" "dup.txt"
    ⟨"dup.txt", "id1"⟩ (by rfl) (by simp) (by rfl)

theorem fetchGo_paged {α : Type} (page_size : Nat) (hps : 0 < page_size) :
    ∀ (fuel : Nat) (all : List α) (k : Nat) (collected : List α),
      (all.drop (k * page_size)).length / page_size + 1 ≤ fuel →
      fetchGo (pagedServer all page_size) page_size fuel (k + 1) collected =
        some (collected ++ all.drop (k * page_size),
          (k + 1) + (all.drop (k * page_size)).length / page_size) := by
  intro fuel
  induction fuel with
  | zero => intro all k collected h; exact absurd h (Nat.not_succ_le_zero _)
  | succ fuel ih =>
    intro all k collected h
    have hserver : pagedServer all page_size (k + 1) =
        (all.drop (k * page_size)).take page_size := by
      simp [pagedServer]
    rw [fetchGo, hserver]
    by_cases hnil : all.drop (k * page_size) = []
    · rw [hnil]
      simp
    · have hlenpos : 0 < (all.drop (k * page_size)).length :=
        List.length_pos.mpr hnil
      by_cases hshort : (all.drop (k * page_size)).length < page_size
      · rw [List.take_of_length_le (Nat.le_of_lt hshort)]
        rw [if_neg (by simpa [List.isEmpty_iff] using hnil)]
        rw [if_pos hshort]
        rw [Nat.div_eq_of_lt hshort]
      · have hge : page_size ≤ (all.drop (k * page_size)).length :=
          Nat.le_of_not_lt hshort
        have htklen : ((all.drop (k * page_size)).take page_size).length =
            page_size := by
          rw [List.length_take]; omega
        have htkne : ¬ ((all.drop (k * page_size)).take page_size).isEmpty = true := by
          rw [List.isEmpty_iff]
          intro hc
          have := congrArg List.length hc
          rw [htklen] at this
          simp at this
          omega
        rw [if_neg htkne, htklen, if_neg (lt_irrefl page_size)]
        have hdropdrop : (all.drop (k * page_size)).drop page_size =
            all.drop ((k + 1) * page_size) := by
          rw [List.drop_drop, Nat.succ_mul, Nat.add_comm]
        have hrec := ih all (k + 1)
          (collected ++ (all.drop (k * page_size)).take page_size)
          (by
            rw [hdropdrop.symm, List.length_drop]
            have hid := Nat.div_eq_sub_div hps hge
            omega)
        rw [hrec]
        have hid := Nat.div_eq_sub_div hps hge
        have hjoin : collected ++ (all.drop (k * page_size)).take page_size ++
            all.drop ((k + 1) * page_size) = collected ++ all.drop (k * page_size) := by
          rw [← hdropdrop, List.append_assoc, List.take_append_drop]
        rw [hjoin]
        have hcount : (k + 1) + 1 + (all.drop ((k + 1) * page_size)).length / page_size =
            (k + 1) + (all.drop (k * page_size)).length / page_size := by
          rw [← hdropdrop, List.length_drop]
          omega
        rw [hcount]

/-- C6: the roster fetcher starts at page 1, concatenates the pages of a
list-backed paginated source in order, and stops exactly at the first short or
empty page: against a source holding `all` it issues
`all.length / page_size + 1` page requests and returns all samples in original
order (given enough fuel, since the Python loop itself is unbounded). -/
theorem fetch_all_pages {α : Type} (all : List α) (page_size fuel : Nat)
    (hps : 0 < page_size) (hfuel : all.length / page_size + 1 ≤ fuel) :
    fetch_all_project_samples (pagedServer all page_size) page_size fuel =
      some (all, all.length / page_size + 1) := by
  have h := fetchGo_paged page_size hps fuel all 0 [] (by simpa using hfuel)
  rw [fetch_all_project_samples]
  simpa [Nat.add_comm] using h

/-- Witness for C6: a mocked source of 250 samples with page size 100 issues
exactly 3 page requests and returns all 250 samples in original order. -/
theorem fetch_all_pages_witness :
    fetch_all_project_samples (pagedServer (List.range 250) 100) 100 3 =
      some (List.range 250, 3) := by
  have h := fetch_all_pages (List.range 250) 100 3 (by norm_num)
    (by norm_num [List.length_range])
  simpa [List.length_range] using h

theorem loop1_dry (proceed : Bool) (submit : Nat → Option String) :
    ∀ (chunks : List (List Sample)) (i : Nat),
      loop1 true proceed submit i chunks = (dryLogs i chunks, [], Outcome.completed) := by
  intro chunks
  induction chunks with
  | nil => intro i; simp [loop1, dryLogs]
  | cons c rest ih => intro i; simp [loop1, dryLogs, ih]

theorem dryLogs_countP_submit :
    ∀ (chunks : List (List Sample)) (i : Nat),
      (dryLogs i chunks).countP isSubmitEv = 0 := by
  intro chunks
  induction chunks with
  | nil => intro i; simp [dryLogs]
  | cons c rest ih => intro i; simp [dryLogs, List.countP_cons, isSubmitEv, ih]

theorem dryLogs_countP_prompt :
    ∀ (chunks : List (List Sample)) (i : Nat),
      (dryLogs i chunks).countP isPromptEv = 0 := by
  intro chunks
  induction chunks with
  | nil => intro i; simp [dryLogs]
  | cons c rest ih => intro i; simp [dryLogs, List.countP_cons, isPromptEv, ih]

/-- C7: in dry-run mode, for every batch list (hence for every batch count and
filter combination) and every submission oracle, the trace is exactly one
dry-run log per batch showing at most the first ten samples, with zero
submission requests, no confirmation prompt, no recorded run URLs, and a
normally completed run. -/
theorem dry_run_never_submits (proceed : Bool) (submit : Nat → Option String)
    (chunks : List (List Sample)) :
    (loop1 true proceed submit 1 chunks).1 = dryLogs 1 chunks ∧
    (loop1 true proceed submit 1 chunks).1.countP isSubmitEv = 0 ∧
    (loop1 true proceed submit 1 chunks).1.countP isPromptEv = 0 ∧
    (loop1 true proceed submit 1 chunks).2.1 = [] ∧
    (loop1 true proceed submit 1 chunks).2.2 = Outcome.completed := by
  rw [loop1_dry proceed submit chunks 1]
  exact ⟨rfl, dryLogs_countP_submit chunks 1, dryLogs_countP_prompt chunks 1,
    rfl, rfl⟩

/-- Counterexample for C8: declining the confirmation prompt ends the run via
`sys.exit(0)` — the exit status is 0, not non-zero as the claim states. -/
theorem decline_exit_zero_counterexample :
    (loop1 false false (fun _ => some "r") 1 [[⟨"s1", "A"⟩]]).2.2 =
        Outcome.aborted_by_user ∧
      exitCode (loop1 false false (fun _ => some "r") 1 [[⟨"s1", "A"⟩]]).2.2 = 0 := by
  constructor <;> rfl

/-- C8 (amended): if the operator declines the one-time confirmation prompt,
the run aborts immediately — the trace ends at the prompt, no submission
request is ever issued and no run URL recorded — but via `sys.exit(0)`, so the
exit status is 0 (the spec's interface section documents this as a deliberate
early exit), not non-zero. -/
theorem decline_aborts_run (submit : Nat → Option String) (chunk : List Sample)
    (rest : List (List Sample)) :
    loop1 false false submit 1 (chunk :: rest) =
        ([Ev.prompt], [], Outcome.aborted_by_user) ∧
    exitCode (loop1 false false submit 1 (chunk :: rest)).2.2 = 0 ∧
    (loop1 false false submit 1 (chunk :: rest)).1.countP isSubmitEv = 0 := by
  have h : loop1 false false submit 1 (chunk :: rest) =
      ([Ev.prompt], [], Outcome.aborted_by_user) := by
    simp [loop1]
  refine ⟨h, ?_, ?_⟩ <;> rw [h] <;> rfl

theorem range_cons_step (i n : Nat) :
    List.range' i (n + 1) = i :: List.range' (i + 1) n := rfl

theorem loop2_completed (submit : Nat → Option String) (sb eb : Int) :
    ∀ (chunks : List (List Sample)) (i : Nat),
      (loop2 true submit sb eb i chunks).2.2 = Outcome.completed := by
  intro chunks
  induction chunks with
  | nil => intro i; simp [loop2]
  | cons c rest ih =>
    intro i
    simp only [loop2]
    by_cases hr : (i : Int) < sb ∨ eb < (i : Int)
    · simp [hr, ih]
    · rw [if_neg hr, if_neg (by simp)]
      cases hs : submit i with
      | none => simp [ih]
      | some rid => simp [ih]

theorem loop2_urls_length (submit : Nat → Option String) (sb eb : Int) :
    ∀ (chunks : List (List Sample)) (i : Nat),
      (loop2 true submit sb eb i chunks).2.1.length =
        ((List.range' i chunks.length).filter (inRangeB sb eb)).countP
          (fun j => (submit j).isSome) := by
  intro chunks
  induction chunks with
  | nil => intro i; simp [loop2]
  | cons c rest ih =>
    intro i
    rw [List.length_cons, range_cons_step]
    simp only [loop2]
    by_cases hr : (i : Int) < sb ∨ eb < (i : Int)
    · have hb : inRangeB sb eb i = false := by
        simp only [inRangeB, decide_eq_false_iff_not]
        omega
      simp [hr, ih, List.filter_cons, hb]
    · have hb : inRangeB sb eb i = true := by
        simp only [inRangeB, decide_eq_true_eq]
        omega
      rw [if_neg hr, if_neg (by simp)]
      cases hs : submit i with
      | none =>
        simp [hs, ih, List.filter_cons, hb, List.countP_cons]
      | some rid =>
        simp [hs, ih, List.filter_cons, hb, List.countP_cons]

theorem loop2_submit_mem (submit : Nat → Option String) (sb eb : Int) :
    ∀ (chunks : List (List Sample)) (i j : Nat),
      i ≤ j → j < i + chunks.length → inRangeB sb eb j = true →
      ∃ m, Ev.submit_req j m ∈ (loop2 true submit sb eb i chunks).1 := by
  intro chunks
  induction chunks with
  | nil =>
    intro i j h1 h2 _
    rw [List.length_nil] at h2
    omega
  | cons c rest ih =>
    intro i j h1 h2 hb
    rw [List.length_cons] at h2
    simp only [loop2]
    by_cases hr : (i : Int) < sb ∨ eb < (i : Int)
    · have hji : j ≠ i := by
        intro hji
        subst hji
        simp only [inRangeB, decide_eq_true_eq] at hb
        omega
      obtain ⟨m, hm⟩ := ih (i + 1) j (by omega) (by omega) hb
      refine ⟨m, ?_⟩
      simp only [if_pos hr, List.mem_cons]
      exact Or.inr hm
    · by_cases hji : j = i
      · subst hji
        refine ⟨c.length, ?_⟩
        rw [if_neg hr, if_neg (by simp)]
        cases hs : submit j with
        | none => simp
        | some rid => simp
      · obtain ⟨m, hm⟩ := ih (i + 1) j (by omega) (by omega) hb
        refine ⟨m, ?_⟩
        rw [if_neg hr, if_neg (by simp)]
        cases hs : submit i with
        | none => simp [hm]
        | some rid => simp [hm]

theorem loop2_submit_mem_inv (submit : Nat → Option String) (sb eb : Int) :
    ∀ (chunks : List (List Sample)) (i j m : Nat),
      Ev.submit_req j m ∈ (loop2 true submit sb eb i chunks).1 →
      i ≤ j ∧ j < i + chunks.length ∧ inRangeB sb eb j = true := by
  intro chunks
  induction chunks with
  | nil => intro i j m hm; simp [loop2] at hm
  | cons c rest ih =>
    intro i j m hm
    simp only [loop2] at hm
    by_cases hr : (i : Int) < sb ∨ eb < (i : Int)
    · rw [if_pos hr] at hm
      simp only [List.mem_cons] at hm
      rcases hm with he | hm
      · exact absurd he (by simp)
      · have h := ih (i + 1) j m hm
        exact ⟨by omega, by rw [List.length_cons]; omega, h.2.2⟩
    · rw [if_neg hr, if_neg (by simp)] at hm
      have hbi : inRangeB sb eb i = true := by
        simp only [inRangeB, decide_eq_true_eq]
        omega
      cases hs : submit i with
      | none =>
        rw [hs] at hm
        simp only [List.mem_append, List.mem_cons, List.mem_singleton] at hm
        rcases hm with (hpre | hij | hfail) | hm
        · by_cases hi : i = 1 <;> simp [hi] at hpre
        · have : j = i := by
            injection hij with h1 h2
          subst this
          exact ⟨le_refl j, by rw [List.length_cons]; omega, hbi⟩
        · exact absurd hfail (by simp)
        · have h := ih (i + 1) j m hm
          exact ⟨by omega, by rw [List.length_cons]; omega, h.2.2⟩
      | some rid =>
        rw [hs] at hm
        simp only [List.mem_append, List.mem_singleton] at hm
        rcases hm with (hpre | hij) | hm
        · by_cases hi : i = 1 <;> simp [hi] at hpre
        · have : j = i := by
            injection hij with h1 h2
          subst this
          exact ⟨le_refl j, by rw [List.length_cons]; omega, hbi⟩
        · have h := ih (i + 1) j m hm
          exact ⟨by omega, by rw [List.length_cons]; omega, h.2.2⟩

theorem loop2_fail_mem (submit : Nat → Option String) (sb eb : Int) :
    ∀ (chunks : List (List Sample)) (i j : Nat),
      i ≤ j → j < i + chunks.length → inRangeB sb eb j = true →
      submit j = none →
      Ev.fail j ∈ (loop2 true submit sb eb i chunks).1 := by
  intro chunks
  induction chunks with
  | nil =>
    intro i j h1 h2 _ _
    rw [List.length_nil] at h2
    omega
  | cons c rest ih =>
    intro i j h1 h2 hb hnone
    rw [List.length_cons] at h2
    simp only [loop2]
    by_cases hr : (i : Int) < sb ∨ eb < (i : Int)
    · have hji : j ≠ i := by
        intro hji
        subst hji
        simp only [inRangeB, decide_eq_true_eq] at hb
        omega
      have hm := ih (i + 1) j (by omega) (by omega) hb hnone
      simp only [if_pos hr, List.mem_cons]
      exact Or.inr hm
    · by_cases hji : j = i
      · subst hji
        rw [if_neg hr, if_neg (by simp), hnone]
        simp
      · have hm := ih (i + 1) j (by omega) (by omega) hb hnone
        rw [if_neg hr, if_neg (by simp)]
        cases hs : submit i with
        | none => simp [hm]
        | some rid => simp [hm]

theorem loop2_no_prompt (proceed : Bool) (submit : Nat → Option String)
    (sb eb : Int) :
    ∀ (chunks : List (List Sample)) (i : Nat), 2 ≤ i →
      (loop2 proceed submit sb eb i chunks).1.countP isPromptEv = 0 := by
  intro chunks
  induction chunks with
  | nil => intro i _; simp [loop2]
  | cons c rest ih =>
    intro i hi
    simp only [loop2]
    by_cases hr : (i : Int) < sb ∨ eb < (i : Int)
    · simp [hr, List.countP_cons, isPromptEv, ih (i + 1) (by omega)]
    · have hi1 : ¬(i = 1 ∧ proceed = false) := by
        rintro ⟨h1, _⟩
        omega
      have hpre : (if i = 1 then [Ev.prompt] else ([] : List Ev)) = [] :=
        if_neg (by omega)
      rw [if_neg hr, if_neg hi1]
      cases hs : submit i with
      | none =>
        simp [hpre, List.countP_append, List.countP_cons, isPromptEv,
          ih (i + 1) (by omega)]
      | some rid =>
        simp [hpre, List.countP_append, List.countP_cons, isPromptEv,
          ih (i + 1) (by omega)]

theorem countP_isSome_isNone (submit : Nat → Option String) :
    ∀ l : List Nat,
      l.countP (fun j => (submit j).isSome) +
          l.countP (fun j => (submit j).isNone) = l.length := by
  intro l
  induction l with
  | nil => simp
  | cons a l ih =>
    rw [List.countP_cons, List.countP_cons]
    cases hs : submit a <;> simp [hs] <;> omega

/-- C2 (amended): in `flowrunanalysis_flowbio.py` the confirmation prompt is
tied to batch index 1 and is evaluated only after the range-skip check.  When
batch 1 lies inside the submission range, the trace starts with the prompt —
so no live submission precedes the operator's confirmation, and declining
aborts before any submission.  But when the range starts after batch 1, no
prompt ever occurs and the in-range batches are submitted without any
confirmation — contrary to the claim as stated. -/
theorem confirmation_gate (proceed : Bool) (submit : Nat → Option String)
    (sb eb : Int) (chunk : List Sample) (rest : List (List Sample)) :
    (sb ≤ 1 → 1 ≤ eb →
      ((loop2 proceed submit sb eb 1 (chunk :: rest)).1.head? = some Ev.prompt ∧
        (proceed = false →
          loop2 proceed submit sb eb 1 (chunk :: rest) =
            ([Ev.prompt], [], Outcome.aborted_by_user)))) ∧
    (1 < sb →
      (loop2 proceed submit sb eb 1 (chunk :: rest)).1.countP isPromptEv = 0) := by
  constructor
  · intro hsb heb
    have hr : ¬(((1 : Nat) : Int) < sb ∨ eb < ((1 : Nat) : Int)) := by omega
    by_cases hp : proceed = false
    · constructor
      · simp only [loop2]
        rw [if_neg hr, if_pos (by simp [hp])]
        rfl
      · intro _
        simp only [loop2]
        rw [if_neg hr, if_pos (by simp [hp])]
    · constructor
      · simp only [loop2]
        rw [if_neg hr, if_neg (by simp [hp])]
        cases hs : submit 1 with
        | none => simp
        | some rid => simp
      · intro hpf
        exact absurd hpf hp
  · intro hsb
    have hr : ((1 : Nat) : Int) < sb ∨ eb < ((1 : Nat) : Int) := by omega
    simp only [loop2]
    rw [if_pos hr]
    simp [List.countP_cons, isPromptEv,
      loop2_no_prompt proceed submit sb eb rest 2 (by omega)]

/-- Witness for C2 (amended): with the submission range [1, 1] covering batch
1, the trace begins with the confirmation prompt. -/
theorem confirmation_gate_witness :
    ((loop2 true (fun _ => some "r") 1 1 1 [[⟨"s1", "A"⟩]]).1).head? =
      some Ev.prompt :=
  ((confirmation_gate true (fun _ => some "r") 1 1 [⟨"s1", "A"⟩] []).1
    (by norm_num) (by norm_num)).1

/-- Counterexample for C2: with 2 batches and start-batch 2, batch 1 is
skipped before the prompt check ever runs, so the run issues a live submission
(one `submit_req` event) with no confirmation prompt at all and completes,
even though the operator — modelled by `proceed = false` — would have
declined. -/
theorem confirmation_gate_counterexample :
    (main2 false (fun _ => some "r") 2 2 none
        [⟨"s1", "A"⟩, ⟨"s2", "B"⟩]).1.countP isSubmitEv = 1 ∧
    (main2 false (fun _ => some "r") 2 2 none
        [⟨"s1", "A"⟩, ⟨"s2", "B"⟩]).1.countP isPromptEv = 0 ∧
    (main2 false (fun _ => some "r") 2 2 none
        [⟨"s1", "A"⟩, ⟨"s2", "B"⟩]).2.2 = Outcome.completed := by
  refine ⟨rfl, rfl, rfl⟩

/-- C3: once past the one-time confirmation, each in-range batch is attempted
independently: every in-range batch produces a submission request, a failing
batch is reported with a failure log event and only that batch is skipped —
the loop continues and the run completes — and when exactly one of the
in-range submissions fails, the final summary count of successful run URLs is
the number of in-range batches minus one. -/
theorem batch_failure_isolated (submit : Nat → Option String) (sb eb : Int)
    (chunks : List (List Sample))
    (h1 : ((List.range' 1 chunks.length).filter (inRangeB sb eb)).countP
        (fun j => (submit j).isNone) = 1) :
    (loop2 true submit sb eb 1 chunks).2.1.length =
        ((List.range' 1 chunks.length).filter (inRangeB sb eb)).length - 1 ∧
    (∀ j, 1 ≤ j → j < 1 + chunks.length → inRangeB sb eb j = true →
        ∃ m, Ev.submit_req j m ∈ (loop2 true submit sb eb 1 chunks).1) ∧
    (∀ j, 1 ≤ j → j < 1 + chunks.length → inRangeB sb eb j = true →
        submit j = none → Ev.fail j ∈ (loop2 true submit sb eb 1 chunks).1) ∧
    (loop2 true submit sb eb 1 chunks).2.2 = Outcome.completed := by
  refine ⟨?_, fun j a b c => loop2_submit_mem submit sb eb chunks 1 j a b c,
    fun j a b c d => loop2_fail_mem submit sb eb chunks 1 j a b c d,
    loop2_completed submit sb eb chunks 1⟩
  rw [loop2_urls_length submit sb eb chunks 1]
  have h2 := countP_isSome_isNone submit
    ((List.range' 1 chunks.length).filter (inRangeB sb eb))
  omega

/-- Witness for C3: three singleton batches, all in range, exactly the second
submission fails: the summary counts 3 - 1 successful URLs. -/
theorem batch_failure_isolated_witness :
    (loop2 true (fun j => if j = 2 then none else some "r") 1 3 1
        [[⟨"s1", "A"⟩], [⟨"s2", "B"⟩], [⟨"s3", "C"⟩]]).2.1.length =
      ((List.range' 1 3).filter (inRangeB 1 3)).length - 1 :=
  (batch_failure_isolated (fun j => if j = 2 then none else some "r") 1 3
    [[⟨"s1", "A"⟩], [⟨"s2", "B"⟩], [⟨"s3", "C"⟩]] (by decide)).1

/-- C9 (amended): the 1-based inclusive start/end range restricts which of the
computed batches are submitted without changing the partition itself: a start
index below 1 is clamped to 1, an end index above the batch count `n` is
clamped to `n`, and the submitted batches are exactly those in
`[max 1 start, min end n]` — so an end index below 1 is *not* clamped and
simply leaves the submission range empty — while a start index strictly
greater than `n` is a fatal configuration error (exit status 1) raised before
any submission. -/
theorem batch_range_behavior (submit : Nat → Option String)
    (num_chunks start_batch : Int) (end_batch : Option Int)
    (selected : List Sample) :
    (((partition selected num_chunks).length : Int) < max 1 start_batch →
      main2 true submit num_chunks start_batch end_batch selected =
          ([], [], Outcome.config_error) ∧
        exitCode Outcome.config_error = 1) ∧
    (max 1 start_batch ≤ ((partition selected num_chunks).length : Int) →
      (∀ j m, Ev.submit_req j m ∈
          (main2 true submit num_chunks start_batch end_batch selected).1 →
          1 ≤ j ∧ j ≤ (partition selected num_chunks).length ∧
          max 1 start_batch ≤ (j : Int) ∧
          (j : Int) ≤
            min (end_batch.getD ((partition selected num_chunks).length : Int))
              ((partition selected num_chunks).length : Int)) ∧
      (∀ j : Nat, 1 ≤ j → j ≤ (partition selected num_chunks).length →
          max 1 start_batch ≤ (j : Int) →
          (j : Int) ≤
            min (end_batch.getD ((partition selected num_chunks).length : Int))
              ((partition selected num_chunks).length : Int) →
          ∃ m, Ev.submit_req j m ∈
            (main2 true submit num_chunks start_batch end_batch selected).1)) := by
  constructor
  · intro hlt
    refine ⟨?_, rfl⟩
    simp only [main2]
    rw [if_pos hlt]
  · intro hle
    have hmain : main2 true submit num_chunks start_batch end_batch selected =
        loop2 true submit (max 1 start_batch)
          (min (end_batch.getD ((partition selected num_chunks).length : Int))
            ((partition selected num_chunks).length : Int)) 1
          (partition selected num_chunks) := by
      simp only [main2]
      rw [if_neg (by omega)]
    constructor
    · intro j m hm
      rw [hmain] at hm
      have h := loop2_submit_mem_inv _ _ _ _ 1 j m hm
      have hb := h.2.2
      simp only [inRangeB, decide_eq_true_eq] at hb
      refine ⟨h.1, ?_, hb.1, hb.2⟩
      have := h.2.1
      omega
    · intro j hj1 hjn hsbj hebj
      rw [hmain]
      exact loop2_submit_mem _ _ _ _ 1 j hj1 (by omega)
        (by simp only [inRangeB, decide_eq_true_eq]; exact ⟨hsbj, hebj⟩)

/-- Witness for C9 (amended): a start index of 5 against 2 computed batches is
a fatal configuration error with exit status 1 and an empty trace — nothing
was submitted. -/
theorem batch_range_behavior_witness :
    main2 true (fun _ => some "r") 2 5 none [⟨"s1", "A"⟩, ⟨"s2", "B"⟩] =
        ([], [], Outcome.config_error) ∧
      exitCode Outcome.config_error = 1 :=
  (batch_range_behavior (fun _ => some "r") 2 5 none
    [⟨"s1", "A"⟩, ⟨"s2", "B"⟩]).1 (by decide)

/-- Counterexample for C9: with 2 computed batches and end-batch 0 (an index
outside `[1, 2]`), the code does not clamp the end index into range — the
submission range is empty and zero batches are submitted — although clamping 0
into `[1, 2]` as the claim states gives 1, under which batch 1 would be in
range (`claimed_clamp 2 1 ≤ 1 ≤ claimed_clamp 2 0`) and hence submitted. -/
theorem batch_range_counterexample :
    (main2 true (fun _ => some "r") 2 1 (some 0)
        [⟨"s1", "A"⟩, ⟨"s2", "B"⟩]).1.countP isSubmitEv = 0 ∧
    claimed_clamp 2 1 ≤ (1 : Int) ∧ (1 : Int) ≤ claimed_clamp 2 0 := by
  refine ⟨rfl, by decide, by decide⟩

theorem loop1_completed (submit : Nat → Option String)
    (hs : ∀ i, (submit i).isSome) :
    ∀ (chunks : List (List Sample)) (i : Nat),
      (loop1 false true submit i chunks).2.2 = Outcome.completed := by
  intro chunks
  induction chunks with
  | nil => intro i; simp [loop1]
  | cons c rest ih =>
    intro i
    simp only [loop1]
    rw [if_neg (by simp), if_neg (by simp)]
    cases hsi : submit i with
    | none =>
      have h := hs i
      rw [hsi] at h
      simp at h
    | some rid => simp [ih]

theorem loop1_submit_mem (submit : Nat → Option String)
    (hs : ∀ i, (submit i).isSome) :
    ∀ (chunks : List (List Sample)) (i j : Nat) (c : List Sample),
      i ≤ j → chunks[j - i]? = some c →
      Ev.submit_req j c.length ∈ (loop1 false true submit i chunks).1 := by
  intro chunks
  induction chunks with
  | nil => intro i j c _ hc; simp at hc
  | cons c0 rest ih =>
    intro i j c hij hc
    simp only [loop1]
    rw [if_neg (by simp), if_neg (by simp)]
    cases hsi : submit i with
    | none =>
      have h := hs i
      rw [hsi] at h
      simp at h
    | some rid =>
      by_cases hji : j = i
      · subst hji
        have h0 : j - j = 0 := Nat.sub_self j
        rw [h0, List.getElem?_cons_zero] at hc
        have hcc : c0 = c := by injection hc
        subst hcc
        simp
      · have hgt : i < j := by omega
        have hsub : j - i = (j - (i + 1)) + 1 := by omega
        rw [hsub, List.getElem?_cons_succ] at hc
        have hm := ih (i + 1) j c (by omega) hc
        simp [hm]

theorem countP_isEmpty_chunks (chunks : List (List Sample)) :
    chunks.countP List.isEmpty =
      (chunks.map List.length).countP (fun m => m == 0) := by
  induction chunks with
  | nil => simp
  | cons c rest ih =>
    rw [List.map_cons, List.countP_cons, List.countP_cons, ih]
    cases c <;> simp

theorem getElem?_replicate_lt {α : Type} (a : α) (k n : Nat) (h : k < n) :
    (List.replicate n a)[k]? = some a := by
  induction n generalizing k with
  | zero => omega
  | succ n ih =>
    rw [List.replicate_succ]
    cases k with
    | zero => rw [List.getElem?_cons_zero]
    | succ k => rw [List.getElem?_cons_succ]; exact ih k (by omega)

/-- C10: when the requested batch count exceeds the number of selected samples
(at least one sample), the partitioner produces `num_chunks` batches of which
the excess `num_chunks - L` are empty, and in a live run (confirmed, all
submissions succeeding) each empty batch still yields a submission request
carrying zero sample rows — submitted like any other batch — and the run
completes. -/
theorem oversized_batch_count (selected : List Sample) (num_chunks : Int)
    (submit : Nat → Option String) (hL : 1 ≤ selected.length)
    (hn : (selected.length : Int) < num_chunks)
    (hs : ∀ i, (submit i).isSome) :
    (partition selected num_chunks).length = num_chunks.toNat ∧
    (partition selected num_chunks).countP List.isEmpty =
        num_chunks.toNat - selected.length ∧
    (∀ j, selected.length < j → j ≤ num_chunks.toNat →
        Ev.submit_req j 0 ∈
          (loop1 false true submit 1 (partition selected num_chunks)).1) ∧
    (loop1 false true submit 1 (partition selected num_chunks)).2.2 =
        Outcome.completed := by
  have hmax : max 1 num_chunks = num_chunks := max_eq_right (by omega)
  have hnat : (max 1 num_chunks).toNat = num_chunks.toNat := by rw [hmax]
  have hLn : selected.length < num_chunks.toNat := by omega
  have hmod : selected.length % num_chunks.toNat = selected.length :=
    Nat.mod_eq_of_lt hLn
  have hdiv : selected.length / num_chunks.toNat = 0 :=
    Nat.div_eq_of_lt hLn
  have hsizes : section_sizes selected.length num_chunks.toNat =
      List.replicate selected.length 1 ++
        List.replicate (num_chunks.toNat - selected.length) 0 := by
    rw [section_sizes, hmod, hdiv]
  have hml : (partition selected num_chunks).map List.length =
      List.replicate selected.length 1 ++
        List.replicate (num_chunks.toNat - selected.length) 0 := by
    rw [partition_map_length, hnat, hsizes]
  refine ⟨?_, ?_, ?_, loop1_completed submit hs (partition selected num_chunks) 1⟩
  · rw [partition_length, hnat]
  · rw [countP_isEmpty_chunks, hml, List.countP_append,
      countP_replicate, countP_replicate]
    norm_num
  · intro j hjL hjn
    have hidx : ((partition selected num_chunks).map List.length)[j - 1]? =
        some 0 := by
      rw [hml]
      rw [List.getElem?_append_right (by simp; omega)]
      rw [List.length_replicate]
      exact getElem?_replicate_lt 0 (j - 1 - selected.length)
        (num_chunks.toNat - selected.length) (by omega)
    rw [List.getElem?_map] at hidx
    obtain ⟨c, hc, hclen⟩ : ∃ c, (partition selected num_chunks)[j - 1]? = some c ∧
        c.length = 0 := by
      cases hg : (partition selected num_chunks)[j - 1]? with
      | none => rw [hg] at hidx; simp at hidx
      | some c =>
        rw [hg] at hidx
        simp only [Option.map_some'] at hidx
        exact ⟨c, rfl, by injection hidx⟩
    have hcnil : c = [] := List.length_eq_zero.mp hclen
    subst hcnil
    have := loop1_submit_mem submit hs (partition selected num_chunks) 1 j []
      (by omega) hc
    simpa using this

/-- Witness for C10: one sample split into 3 requested batches gives batches
`[[s1], [], []]`; the live run issues a zero-row submission request for the
empty batch 2. -/
theorem oversized_batch_count_witness :
    Ev.submit_req 2 0 ∈
      (loop1 false true (fun _ => some "r") 1
        (partition [(⟨"s1", "A"⟩ : Sample)] 3)).1 := by
  have h := oversized_batch_count [(⟨"s1", "A"⟩ : Sample)] 3 (fun _ => some "r")
    (by decide) (by decide) (fun i => rfl)
  exact h.2.2.1 2 (by decide) (by decide)

end FlowRun
